import Mathlib

/-!
Shallow embedding of the task-manager core (`task_app/models.py` and
`task_app/repository.py`).

Modelling choices:
* Python JSON scalar values become `JVal` (null, bool, int, string).
* `datetime.date` and `datetime.datetime` values are modelled by their
  ordinal as a `Nat`; `isoformat` / `fromisoformat` become a decimal
  string codec (`isoOfNat` / `isoToNat`).  The codec keeps the properties
  the code relies on: formatting is total and yields a non-empty string,
  parsing is partial (fails on the empty string and on any string that is
  not a well-formed date), and parsing inverts formatting exactly, which
  matches Python's exact `fromisoformat ∘ isoformat` round-trip.
* `datetime.utcnow()` is modelled by an explicit `now : Nat` argument
  threaded into the mutating operations.
* A Python `dict[int, Task]` is an insertion-ordered association list
  with the update-in-place / append-if-fresh semantics of `dict`.
* The backing JSON file is part of the repository state
  (`file : Option (List Payload)`, `none` = the file does not exist), and
  `_save` overwrites it; `storage_configured = false` models a repository
  constructed without a storage path.
* Python exceptions become explicit `Except`-style results; `update_task`
  returns the post-call state together with the result because the Python
  code mutates the task object held in the dict in place, so mutations
  performed before an exception survive it.
-/

namespace TaskApp

/-- A JSON scalar value as held in a persisted record. -/
inductive JVal where
  | null : JVal
  | bool (b : Bool) : JVal
  | int (n : Int) : JVal
  | str (s : String) : JVal
deriving Repr, DecidableEq

/-- Python truthiness of a JSON scalar (`if due:`, `bool(...)`). -/
def truthy : JVal → Bool
  | .null => false
  | .bool b => b
  | .int n => decide (n ≠ 0)
  | .str s => decide (s ≠ "")

/-- Python `str(...)` coercion of a JSON scalar; never fails. -/
def strCoerce : JVal → String
  | .null => "None"
  | .bool b => if b then "True" else "False"
  | .int n => toString n
  | .str s => s

/-- The character of a decimal digit. -/
def digitChar : Nat → Char
  | 0 => '0' | 1 => '1' | 2 => '2' | 3 => '3' | 4 => '4'
  | 5 => '5' | 6 => '6' | 7 => '7' | 8 => '8' | _ => '9'

/-- The value of a decimal digit character, `none` on any other character. -/
def digitVal (c : Char) : Option Nat :=
  if c = '0' then some 0 else if c = '1' then some 1 else if c = '2' then some 2
  else if c = '3' then some 3 else if c = '4' then some 4 else if c = '5' then some 5
  else if c = '6' then some 6 else if c = '7' then some 7 else if c = '8' then some 8
  else if c = '9' then some 9 else none

/-- Decimal digits of `n`, most significant first (fuel-based so that the
kernel can evaluate it; `fuel > n` suffices because the number of digits of
`n` is at most `n + 1`). -/
def natCharsAux (fuel n : Nat) : List Char :=
  match fuel with
  | 0 => []
  | f + 1 =>
    if n < 10 then [digitChar n]
    else natCharsAux f (n / 10) ++ [digitChar (n % 10)]

/-- Decimal digits of `n`, most significant first. -/
def natChars (n : Nat) : List Char := natCharsAux (n + 1) n

/-- Model of `date.isoformat()` / `datetime.isoformat()`: the canonical
string of the ordinal. -/
def isoOfNat (n : Nat) : String := String.mk (natChars n)

/-- Left-to-right accumulation of decimal digit values; fails on the first
non-digit character. -/
def digitsVal : List Char → Nat → Option Nat
  | [], acc => some acc
  | c :: cs, acc =>
    match digitVal c with
    | some v => digitsVal cs (10 * acc + v)
    | none => none

/-- Model of `date.fromisoformat` / `datetime.fromisoformat` on a string:
fails on the empty string and on any malformed content. -/
def isoToNat (s : String) : Option Nat :=
  if s.data.isEmpty then none else digitsVal s.data 0

/-- `fromisoformat` applied to a JSON scalar: Python raises `TypeError`
unless the argument is a string, then `ValueError` on malformed content;
both are modelled as `none`. -/
def isoValToNat : JVal → Option Nat
  | .str s => isoToNat s
  | _ => none

/-- Python `int(...)` coercion of a JSON scalar (`int(payload["id"])`):
ints pass through, bools become 0/1, numeric strings parse, anything else
raises. -/
def intCoerce : JVal → Option Int
  | .int n => some n
  | .bool b => some (if b then 1 else 0)
  | .str s => s.toInt?
  | .null => none

/-- One task (`models.py`, `@dataclass class Task`). -/
structure Task where
  id : Int
  title : String
  description : String
  completed : Bool
  due_date : Option Nat
  created_at : Nat
  updated_at : Nat
deriving Repr, DecidableEq

/-- A persisted record: the JSON object of one task, restricted to the
keys the code reads or writes.  A `none` field models an absent key. -/
structure Payload where
  id : Option JVal
  title : Option JVal
  description : Option JVal
  completed : Option JVal
  due_date : Option JVal
  created_at : Option JVal
  updated_at : Option JVal
deriving Repr, DecidableEq

/-- `Task.to_dict` (`models.py` lines 22-33). -/
def Task.to_dict (t : Task) : Payload where
  id := some (.int t.id)
  title := some (.str t.title)
  description := some (.str t.description)
  completed := some (.bool t.completed)
  due_date := some (match t.due_date with
    | some d => .str (isoOfNat d)
    | none => .null)
  created_at := some (.str (isoOfNat t.created_at))
  updated_at := some (.str (isoOfNat t.updated_at))

/-- `Task.from_dict` (`models.py` lines 35-48).  `payload["id"]`,
`payload["title"]`, `payload["created_at"]`, `payload["updated_at"]` raise
`KeyError` when absent; `payload.get` supplies the defaults; the due date
is parsed only when truthy (`if due`); any exception is `none`. -/
def Task.from_dict (p : Payload) : Option Task := do
  let idv ← p.id
  let idn ← intCoerce idv
  let titlev ← p.title
  let due := p.due_date.getD .null
  let dd ← if truthy due then (isoValToNat due).map some else pure none
  let cav ← p.created_at
  let ca ← isoValToNat cav
  let uav ← p.updated_at
  let ua ← isoValToNat uav
  pure { id := idn
         title := strCoerce titlev
         description := strCoerce (p.description.getD (.str ""))
         completed := truthy (p.completed.getD (.bool false))
         due_date := dd
         created_at := ca
         updated_at := ua }

/-- Python `str.strip()`: drop leading and trailing whitespace.  This is
extensionally `String.trim`, but written structurally over the character
list so that the kernel can evaluate it on concrete strings. -/
def pyStrip (s : String) : String :=
  String.mk (((s.data.dropWhile Char.isWhitespace).reverse.dropWhile
    Char.isWhitespace).reverse)

/-- Errors raised by the repository (`KeyError(task_id)`, `ValueError`,
`TypeError`). -/
inductive RepoError where
  | notFound (id : Int) : RepoError
  | validation (msg : String) : RepoError
  | typeError (msg : String) : RepoError
deriving Repr, DecidableEq

deriving instance DecidableEq for Except

/-- Repository state (`repository.py`, `class TaskRepository`): the
in-memory `dict[int, Task]` as an insertion-ordered association list, the
next-id counter, whether a storage path is configured, and the current
content of the backing file (`none` = the file does not exist). -/
structure TaskRepository where
  tasks : List (Int × Task)
  next_id : Int
  storage_configured : Bool
  file : Option (List Payload)
deriving Repr, DecidableEq

/-- `self._tasks[task_id]` lookup. -/
def dictGet (d : List (Int × Task)) (k : Int) : Option Task :=
  (d.find? (fun p => p.1 == k)).map (fun p => p.2)

/-- `self._tasks[k] = v`: replace in place when the key is present,
append otherwise (Python dicts keep insertion order). -/
def dictInsert (k : Int) (v : Task) (d : List (Int × Task)) : List (Int × Task) :=
  if d.any (fun p => p.1 == k) then
    d.map (fun p => if p.1 == k then (k, v) else p)
  else d ++ [(k, v)]

/-- `max(self._tasks)`: the maximum key of a non-empty dict. -/
def maxKey : List (Int × Task) → Int
  | [] => 0
  | p :: ps => ps.foldl (fun m q => max m q.1) p.1

/-- Sort order used by `sorted(tasks, key=lambda item: item.id)`. -/
def taskLE (a b : Task) : Prop := a.id ≤ b.id

instance : DecidableRel taskLE := fun a b => inferInstanceAs (Decidable (a.id ≤ b.id))

instance : IsTotal Task taskLE := ⟨fun a b => Int.le_total a.id b.id⟩

instance : IsTrans Task taskLE := ⟨fun _ _ _ h h2 => Int.le_trans h h2⟩

/-- The `due_before` filter predicate of `list_tasks`:
`task.due_date is not None and task.due_date <= due_before`. -/
def dueFilter (due_before : Nat) (t : Task) : Bool :=
  match t.due_date with
  | some dd => decide (dd ≤ due_before)
  | none => false

/-- `TaskRepository.list_tasks` (`repository.py` lines 56-74). -/
def TaskRepository.list_tasks (s : TaskRepository) (completed : Option Bool)
    (due_before : Option Nat) : List Task :=
  let ts := s.tasks.map (fun p => p.2)
  let ts := match completed with
    | some c => ts.filter (fun t => t.completed == c)
    | none => ts
  let ts := match due_before with
    | some d => ts.filter (dueFilter d)
    | none => ts
  List.insertionSort taskLE ts

/-- `TaskRepository._save` (`repository.py` lines 44-51): no-op without a
storage path, otherwise overwrite the file with the full collection in
ascending-id order. -/
def TaskRepository.save (s : TaskRepository) : TaskRepository :=
  if s.storage_configured then
    { s with file := some ((s.list_tasks none none).map Task.to_dict) }
  else s

/-- `TaskRepository.add_task` (`repository.py` lines 76-99).  Returns the
post-call state and the result; a `ValueError` leaves the state untouched. -/
def TaskRepository.add_task (s : TaskRepository) (now : Nat) (title : String)
    (description : String := "") (due_date : Option Nat := none) :
    TaskRepository × Except RepoError Task :=
  let t := pyStrip title
  if t = "" then (s, .error (.validation "Task title must not be empty."))
  else
    let task : Task :=
      { id := s.next_id
        title := t
        description := pyStrip description
        completed := false
        due_date := due_date
        created_at := now
        updated_at := now }
    let s1 : TaskRepository :=
      { s with tasks := dictInsert task.id task s.tasks, next_id := s.next_id + 1 }
    (s1.save, .ok task)

/-- `TaskRepository.get_task` (`repository.py` lines 101-105). -/
def TaskRepository.get_task (s : TaskRepository) (task_id : Int) :
    Except RepoError Task :=
  match dictGet s.tasks task_id with
  | some t => .ok t
  | none => .error (.notFound task_id)

/-- The object passed as `due_date` to `update_task`: `None`, a `date`,
or a value of any other type (carried as a tag), the `_SENTINEL` default
being the outer `Option`. -/
inductive DueArg where
  | null : DueArg
  | date (d : Nat) : DueArg
  | other (tag : String) : DueArg
deriving Repr, DecidableEq

/-- `TaskRepository.update_task` (`repository.py` lines 107-148).  The
Python code mutates the task object held in the dict field by field, in
source order (title, description, due_date, completed), and raises
`TypeError` on a malformed `due_date` only after the earlier assignments
have already happened in place; the returned state reflects that.  `none`
in an argument models "parameter not supplied" (the `None` / `_SENTINEL`
defaults). -/
def TaskRepository.update_task (s : TaskRepository) (now : Nat) (task_id : Int)
    (title : Option String := none) (description : Option (Option String) := none)
    (due_date : Option DueArg := none) (completed : Option Bool := none) :
    TaskRepository × Except RepoError Task :=
  match dictGet s.tasks task_id with
  | none => (s, .error (.notFound task_id))
  | some t0 =>
    if title.isSome ∧ pyStrip (title.getD "") = "" then
      (s, .error (.validation "Task title must not be empty."))
    else
      let t1 := match title with
        | some ti => { t0 with title := pyStrip ti }
        | none => t0
      let t2 := match description with
        | some dv => { t1 with description := pyStrip (dv.getD "") }
        | none => t1
      match due_date with
      | some (.other _) =>
        ({ s with tasks := dictInsert task_id t2 s.tasks },
         .error (.typeError "due_date must be a date object or None."))
      | _ =>
        let t3 := match due_date with
          | some .null => { t2 with due_date := none }
          | some (.date d) => { t2 with due_date := some d }
          | _ => t2
        let t4 := match completed with
          | some c => { t3 with completed := c }
          | none => t3
        let changed :=
          title.isSome || description.isSome || due_date.isSome || completed.isSome
        if changed then
          let t5 := { t4 with updated_at := now }
          (TaskRepository.save
             { s with tasks := dictInsert task_id t5 s.tasks }, .ok t5)
        else (s, .ok t0)

/-- One iteration of the `_load` loop (`repository.py` lines 36-38):
`task = Task.from_dict(item); self._tasks[task.id] = task`, a malformed
record aborting the whole load. -/
def loadStep (d : List (Int × Task)) (item : Payload) : Option (List (Int × Task)) :=
  (Task.from_dict item).map (fun t => dictInsert t.id t d)

/-- `TaskRepository._load` body over a parsed file (`repository.py` lines
28-42): reconstruct every record (any malformed record aborts the whole
load), key each task by its id, then recompute the next-id counter. -/
def loadTasks (items : List Payload) : Option (List (Int × Task)) :=
  items.foldlM loadStep []

/-- `TaskRepository.__init__` with a storage path (`repository.py` lines
17-42): an absent file yields an empty repository, otherwise every record
is loaded and the next-id counter becomes `max(ids) + 1`, or 1 when the
collection is empty. -/
def TaskRepository.load (file : Option (List Payload)) : Option TaskRepository :=
  match file with
  | none => some { tasks := [], next_id := 1, storage_configured := true, file := none }
  | some items =>
    (loadTasks items).map (fun d =>
      { tasks := d
        next_id := if d.isEmpty then 1 else maxKey d + 1
        storage_configured := true
        file := some items })

/-- Run a list of `add_task` requests in order (title, description, due
date), collecting the ids of the tasks created by the successful calls;
a failed call leaves the state unchanged and creates nothing. -/
def runAdds (s : TaskRepository) (now : Nat) :
    List (String × String × Option Nat) → TaskRepository × List Int
  | [] => (s, [])
  | (ti, de, du) :: reqs =>
    match s.add_task now ti de du with
    | (s1, .ok t) =>
      let r := runAdds s1 now reqs
      (r.1, t.id :: r.2)
    | (s1, .error _) => runAdds s1 now reqs

/-- Keys of the in-memory dict. -/
def keys (d : List (Int × Task)) : List Int := d.map (fun p => p.1)

/-- Invariant of reachable repository states used below: keys are
pairwise distinct, every key is the id of the task it maps to, and every
key is below the next-id counter. -/
def Inv (s : TaskRepository) : Prop :=
  (keys s.tasks).Nodup ∧ (∀ p ∈ s.tasks, p.1 = p.2.id) ∧
    ∀ p ∈ s.tasks, p.1 < s.next_id

/-- Timestamp sanity of every task held by a repository state: the spec
invariant `updated_at >= created_at`. -/
def TimestampsOK (s : TaskRepository) : Prop :=
  ∀ p ∈ s.tasks, p.2.created_at ≤ p.2.updated_at

/-- Maximum `id` field among the tasks of a non-empty dict. -/
def maxId : List (Int × Task) → Int
  | [] => 0
  | p :: ps => ps.foldl (fun m q => max m q.2.id) p.2.id

/-- Concrete fixture: a task as it sits in a repository. -/
def taskA : Task :=
  { id := 1, title := "Old", description := "old", completed := false,
    due_date := some 5, created_at := 3, updated_at := 3 }

/-- Concrete fixture: a second task. -/
def taskB : Task :=
  { id := 2, title := "B", description := "", completed := true,
    due_date := none, created_at := 4, updated_at := 6 }

/-- Concrete fixture: a file-backed repository holding `taskA` and `taskB`,
with the backing file in sync. -/
def repoA : TaskRepository :=
  { tasks := [(1, taskA), (2, taskB)], next_id := 3, storage_configured := true,
    file := some [Task.to_dict taskA, Task.to_dict taskB] }

/-- Concrete fixture: a persisted record whose `due_date` is the empty
string (present, non-null, unparsable as a date). -/
def payloadEmptyDue : Payload :=
  { id := some (.int 1), title := some (.str "T"), description := none,
    completed := none, due_date := some (.str ""),
    created_at := some (.str "3"), updated_at := some (.str "4") }

/-- Concrete fixture: a persisted record whose timestamps are out of order
(`updated_at` before `created_at`). -/
def payloadBackwards : Payload :=
  { id := some (.int 1), title := some (.str "T"), description := none,
    completed := none, due_date := none,
    created_at := some (.str "5"), updated_at := some (.str "4") }

/-- Concrete fixture: a record whose `completed` is the string "false". -/
def payloadStrFalse : Payload :=
  { id := some (.int 1), title := some (.str "T"), description := none,
    completed := some (.str "false"), due_date := none,
    created_at := some (.str "3"), updated_at := some (.str "4") }

/-- Concrete fixture: the task reconstructed from `payloadStrFalse`. -/
def taskStrFalse : Task :=
  { id := 1, title := "T", description := "", completed := true,
    due_date := none, created_at := 3, updated_at := 4 }

/-- Concrete fixture: a persisted record with a truthy but unparsable
`due_date`. -/
def payloadBadDue : Payload :=
  { id := some (.int 1), title := some (.str "T"), description := none,
    completed := none, due_date := some (.str "x"),
    created_at := some (.str "3"), updated_at := some (.str "4") }

/-- Concrete fixture: the repository state produced by loading a file
holding just the record of `taskA`. -/
def repoSmall : TaskRepository :=
  { tasks := [(1, taskA)], next_id := 2, storage_configured := true,
    file := some [Task.to_dict taskA] }

theorem digitVal_digitChar {d : Nat} (h : d < 10) : digitVal (digitChar d) = some d := by
  interval_cases d <;> decide

theorem digitsVal_append (xs ys : List Char) (acc : Nat) :
    digitsVal (xs ++ ys) acc = (digitsVal xs acc).bind (fun a => digitsVal ys a) := by
  induction xs generalizing acc with
  | nil => rfl
  | cons c cs ih =>
    simp only [List.cons_append, digitsVal]
    cases digitVal c with
    | none => rfl
    | some v => exact ih _

theorem digitsVal_natCharsAux {fuel n : Nat} (h : n < fuel) :
    digitsVal (natCharsAux fuel n) 0 = some n := by
  induction fuel generalizing n with
  | zero => omega
  | succ f ih =>
    by_cases h10 : n < 10
    · simp [natCharsAux, if_pos h10, digitsVal, digitVal_digitChar h10]
    · have hdiv : n / 10 < n := Nat.div_lt_self (by omega) (by omega)
      have hf : n / 10 < f := by omega
      rw [natCharsAux, if_neg h10, digitsVal_append, ih hf]
      have hm : n % 10 < 10 := Nat.mod_lt n (by omega)
      simp [digitsVal, digitVal_digitChar hm]
      omega

theorem natCharsAux_ne_nil {fuel n : Nat} (h : n < fuel) : natCharsAux fuel n ≠ [] := by
  cases fuel with
  | zero => omega
  | succ f => by_cases h10 : n < 10 <;> simp [natCharsAux, h10]

theorem natChars_ne_nil (n : Nat) : natChars n ≠ [] :=
  natCharsAux_ne_nil (Nat.lt_succ_self n)

theorem isoToNat_isoOfNat (n : Nat) : isoToNat (isoOfNat n) = some n := by
  have hne : natChars n ≠ [] := natChars_ne_nil n
  simp only [isoToNat, isoOfNat]
  rw [if_neg (by simpa using hne)]
  exact digitsVal_natCharsAux (Nat.lt_succ_self n)

theorem isoOfNat_ne_empty (n : Nat) : isoOfNat n ≠ "" := by
  have hne : natChars n ≠ [] := natChars_ne_nil n
  simpa [isoOfNat, String.ext_iff] using hne

theorem truthy_isoOfNat (n : Nat) : truthy (.str (isoOfNat n)) = true := by
  simp [truthy, isoOfNat_ne_empty n]

/-- Serialization round-trip of a single task: the code's exact
`fromisoformat ∘ isoformat` inversion lifts to whole records. -/
theorem from_dict_to_dict (t : Task) : Task.from_dict (Task.to_dict t) = some t := by
  obtain ⟨i, ti, de, co, due, ca, ua⟩ := t
  cases due with
  | none =>
    simp [Task.from_dict, Task.to_dict, truthy, strCoerce, intCoerce,
      isoValToNat, isoToNat_isoOfNat]
  | some d =>
    simp [Task.from_dict, Task.to_dict, truthy, truthy_isoOfNat, strCoerce, intCoerce,
      isoValToNat, isoToNat_isoOfNat, isoOfNat_ne_empty]

theorem from_dict_fields {p : Payload} {t : Task} (h : Task.from_dict p = some t) :
    t.due_date = (if truthy (p.due_date.getD .null) = true
      then isoValToNat (p.due_date.getD .null) else none) ∧
    t.completed = truthy (p.completed.getD (.bool false)) ∧
    t.description = strCoerce (p.description.getD (.str "")) := by
  by_cases ht : truthy (p.due_date.getD .null) = true
  · rw [if_pos ht]
    simp only [Task.from_dict, ht, if_true, bind, Option.bind_eq_some, Option.map_eq_some',
      pure, Option.some.injEq] at h
    obtain ⟨idv, hidv, idn, hidn, titlev, htitlev, dd, ⟨d, hd, rfl⟩, cav, hcav, ca, hca,
      uav, huav, ua, hua, hmk⟩ := h
    subst hmk
    exact ⟨hd.symm, rfl, rfl⟩
  · rw [if_neg ht]
    simp only [Task.from_dict, ht, if_false, bind, Option.bind_eq_some, pure,
      Option.some.injEq, Bool.false_eq_true] at h
    obtain ⟨idv, hidv, idn, hidn, titlev, htitlev, dd, hdd, cav, hcav, ca, hca,
      uav, huav, ua, hua, hmk⟩ := h
    subst hmk
    cases hdd
    exact ⟨rfl, rfl, rfl⟩

theorem from_dict_due_unparsable {p : Payload}
    (ht : truthy (p.due_date.getD .null) = true)
    (hp : isoValToNat (p.due_date.getD .null) = none) : Task.from_dict p = none := by
  cases hfd : Task.from_dict p with
  | none => rfl
  | some t =>
    exfalso
    simp only [Task.from_dict, ht, if_true, bind, Option.bind_eq_some, Option.map_eq_some',
      pure, Option.some.injEq] at hfd
    obtain ⟨idv, hidv, idn, hidn, titlev, htitlev, dd, ⟨d, hd, rfl⟩, hrest⟩ := hfd
    rw [hp] at hd
    cases hd

theorem keys_append (d1 d2 : List (Int × Task)) : keys (d1 ++ d2) = keys d1 ++ keys d2 :=
  List.map_append _ _ _

theorem any_key_eq_true {d : List (Int × Task)} {k : Int} :
    (d.any (fun p => p.1 == k)) = true ↔ k ∈ keys d := by
  rw [List.any_eq_true]
  unfold keys
  constructor
  · rintro ⟨p, hp, hpk⟩
    exact (eq_of_beq hpk) ▸ List.mem_map.mpr ⟨p, hp, rfl⟩
  · intro hk
    obtain ⟨p, hp, hpk⟩ := List.mem_map.mp hk
    exact ⟨p, hp, beq_iff_eq.mpr hpk⟩

theorem dictInsert_of_not_mem {d : List (Int × Task)} {k : Int} {v : Task}
    (h : k ∉ keys d) : dictInsert k v d = d ++ [(k, v)] := by
  unfold dictInsert
  rw [if_neg (fun hc => h (any_key_eq_true.mp hc))]

theorem keys_dictInsert_of_mem {d : List (Int × Task)} {k : Int} {v : Task}
    (h : k ∈ keys d) : keys (dictInsert k v d) = keys d := by
  unfold dictInsert
  rw [if_pos (any_key_eq_true.mpr h)]
  unfold keys
  rw [List.map_map]
  refine List.map_congr_left (fun p _ => ?_)
  simp only [Function.comp]
  by_cases hpk : (p.1 == k) = true
  · rw [if_pos hpk]; exact (eq_of_beq hpk).symm
  · rw [if_neg hpk]

theorem mem_dictInsert {d : List (Int × Task)} {k : Int} {v : Task} {q : Int × Task}
    (h : q ∈ dictInsert k v d) : q = (k, v) ∨ q ∈ d := by
  unfold dictInsert at h
  split at h
  · obtain ⟨p, hp, hq⟩ := List.mem_map.mp h
    by_cases hpk : (p.1 == k) = true
    · left; rw [← hq]; simp [hpk]
    · right; rw [← hq]; simpa [hpk] using hp
  · rcases List.mem_append.mp h with hq | hq
    · right; exact hq
    · left; simpa using hq

theorem dictGet_mem {d : List (Int × Task)} {k : Int} {t : Task}
    (h : dictGet d k = some t) : (k, t) ∈ d := by
  unfold dictGet at h
  obtain ⟨p, hp, hpt⟩ := Option.map_eq_some'.mp h
  have hmem : p ∈ d := List.mem_of_find?_eq_some hp
  have hk : (p.1 == k) = true := by
    have := List.find?_some hp
    exact this
  obtain ⟨a, b⟩ := p
  cases hpt
  cases eq_of_beq hk
  exact hmem

theorem save_tasks (s : TaskRepository) : s.save.tasks = s.tasks := by
  unfold TaskRepository.save; split <;> rfl

theorem save_next_id (s : TaskRepository) : s.save.next_id = s.next_id := by
  unfold TaskRepository.save; split <;> rfl

theorem save_storage (s : TaskRepository) :
    s.save.storage_configured = s.storage_configured := by
  unfold TaskRepository.save; split <;> rfl

theorem save_file_of_configured {s : TaskRepository} (h : s.storage_configured = true) :
    s.save.file = some ((s.list_tasks none none).map Task.to_dict) := by
  unfold TaskRepository.save; rw [if_pos h]

theorem loadAll_key_eq_id :
    ∀ (items : List Payload) (d0 d : List (Int × Task)),
    (∀ p ∈ d0, p.1 = p.2.id) → List.foldlM loadStep d0 items = some d →
    ∀ p ∈ d, p.1 = p.2.id := by
  intro items
  induction items with
  | nil =>
    intro d0 d h0 hl
    exact (Option.some.inj hl) ▸ h0
  | cons i items ih =>
    intro d0 d h0 hl
    rw [List.foldlM_cons] at hl
    cases hfd : Task.from_dict i with
    | none => rw [loadStep, hfd] at hl; simp at hl
    | some t =>
      rw [loadStep, hfd] at hl
      simp only [Option.map_some', Option.bind_eq_bind, Option.some_bind] at hl
      refine ih (dictInsert t.id t d0) d (fun p hp => ?_) hl
      rcases mem_dictInsert hp with h | h
      · rw [h]
      · exact h0 p h

theorem loadAll_values :
    ∀ (items : List Payload) (d0 d : List (Int × Task)),
    List.foldlM loadStep d0 items = some d →
    ∀ p ∈ d, p ∈ d0 ∨ ∃ q ∈ items, Task.from_dict q = some p.2 := by
  intro items
  induction items with
  | nil =>
    intro d0 d hl p hp
    exact Or.inl ((Option.some.inj hl) ▸ hp)
  | cons i items ih =>
    intro d0 d hl p hp
    rw [List.foldlM_cons] at hl
    cases hfd : Task.from_dict i with
    | none => rw [loadStep, hfd] at hl; simp at hl
    | some t =>
      rw [loadStep, hfd] at hl
      simp only [Option.map_some', Option.bind_eq_bind, Option.some_bind] at hl
      rcases ih (dictInsert t.id t d0) d hl p hp with h | ⟨q, hq, hfq⟩
      · rcases mem_dictInsert h with h2 | h2
        · right
          refine ⟨i, List.mem_cons_self i items, ?_⟩
          rw [h2]
          simpa using hfd
        · exact Or.inl h2
      · exact Or.inr ⟨q, List.mem_cons_of_mem i hq, hfq⟩

theorem loadAll_map_to_dict :
    ∀ (l : List Task) (d0 : List (Int × Task)),
    (∀ t ∈ l, t.id ∉ keys d0) → (l.map (fun t => t.id)).Nodup →
    List.foldlM loadStep d0 (l.map Task.to_dict) =
      some (d0 ++ l.map (fun t => (t.id, t))) := by
  intro l
  induction l with
  | nil => intro d0 _ _; simp
  | cons t l ih =>
    intro d0 hfresh hnd
    rw [List.map_cons, List.foldlM_cons, loadStep, from_dict_to_dict]
    simp only [Option.map_some', Option.bind_eq_bind, Option.some_bind]
    rw [dictInsert_of_not_mem (hfresh t (List.mem_cons_self t l))]
    rw [List.map_cons] at hnd
    have hnd2 := List.nodup_cons.mp hnd
    rw [ih (d0 ++ [(t.id, t)]) ?_ hnd2.2]
    · simp
    · intro u hu
      rw [keys_append]
      intro hmem
      rcases List.mem_append.mp hmem with h | h
      · exact hfresh u (List.mem_cons_of_mem t hu) h
      · have : u.id = t.id := by simpa [keys] using h
        exact hnd2.1 (this ▸ List.mem_map_of_mem (fun x => x.id) hu)

theorem foldl_max_fst_eq_id :
    ∀ (ps : List (Int × Task)) (a : Int), (∀ q ∈ ps, q.1 = q.2.id) →
    ps.foldl (fun m q => max m q.1) a = ps.foldl (fun m q => max m q.2.id) a := by
  intro ps
  induction ps with
  | nil => intro a _; rfl
  | cons q ps ih =>
    intro a h
    simp only [List.foldl_cons]
    rw [h q (List.mem_cons_self q ps), ih _ (fun u hu => h u (List.mem_cons_of_mem q hu))]

theorem maxKey_eq_maxId {d : List (Int × Task)} (h : ∀ p ∈ d, p.1 = p.2.id) :
    maxKey d = maxId d := by
  cases d with
  | nil => rfl
  | cons p ps =>
    simp only [maxKey, maxId]
    rw [h p (List.mem_cons_self p ps)]
    exact foldl_max_fst_eq_id ps _ (fun u hu => h u (List.mem_cons_of_mem p hu))

theorem add_task_err_spec {s : TaskRepository} {now : Nat} {ti de : String}
    {du : Option Nat} (hti : pyStrip ti = "") :
    s.add_task now ti de du = (s, .error (.validation "Task title must not be empty.")) := by
  simp [TaskRepository.add_task, hti]

theorem add_task_ok_spec {s : TaskRepository} {now : Nat} {ti de : String}
    {du : Option Nat} (hti : ¬ pyStrip ti = "") :
    s.add_task now ti de du =
      ((TaskRepository.save
          { s with
            tasks := dictInsert s.next_id
              { id := s.next_id, title := pyStrip ti, description := pyStrip de,
                completed := false, due_date := du, created_at := now, updated_at := now }
              s.tasks,
            next_id := s.next_id + 1 }),
       .ok { id := s.next_id, title := pyStrip ti, description := pyStrip de,
             completed := false, due_date := du, created_at := now, updated_at := now }) := by
  simp [TaskRepository.add_task, hti]

theorem not_mem_keys_next {s : TaskRepository} (hI : Inv s) :
    s.next_id ∉ keys s.tasks := by
  intro hmem
  obtain ⟨p, hp, hpk⟩ := List.mem_map.mp hmem
  exact absurd (hpk ▸ hI.2.2 p hp) (lt_irrefl s.next_id)

theorem inv_save {s : TaskRepository} (h : Inv s) : Inv s.save := by
  unfold Inv at h ⊢
  rw [save_tasks, save_next_id]
  exact h

theorem inv_insert_next {s : TaskRepository} (hI : Inv s) (v : Task)
    (hv : v.id = s.next_id) :
    Inv { s with tasks := dictInsert s.next_id v s.tasks, next_id := s.next_id + 1 } := by
  obtain ⟨hnd, hkid, hlt⟩ := hI
  have hfresh : s.next_id ∉ keys s.tasks := not_mem_keys_next ⟨hnd, hkid, hlt⟩
  rw [Inv]
  rw [dictInsert_of_not_mem hfresh]
  refine ⟨?_, ?_, ?_⟩
  · rw [keys_append]
    refine List.Nodup.append hnd (List.nodup_singleton _) ?_
    intro a ha hb
    have hab : a = s.next_id := by simpa [keys] using hb
    exact hfresh (hab ▸ ha)
  · intro p hp
    rcases List.mem_append.mp hp with h | h
    · exact hkid p h
    · rw [List.mem_singleton.mp h, hv]
  · intro p hp
    rcases List.mem_append.mp hp with h | h
    · exact lt_trans (hlt p h) (lt_add_one s.next_id)
    · rw [List.mem_singleton.mp h]
      exact lt_add_one s.next_id

theorem runAdds_spec {now : Nat} :
    ∀ (reqs : List (String × String × Option Nat)) (s : TaskRepository), Inv s →
    Inv (runAdds s now reqs).1 ∧
    s.next_id ≤ (runAdds s now reqs).1.next_id ∧
    (∀ i ∈ (runAdds s now reqs).2, s.next_id ≤ i) ∧
    List.Pairwise (fun a b => a < b) (runAdds s now reqs).2 := by
  intro reqs
  induction reqs with
  | nil =>
    intro s hI
    exact ⟨hI, le_refl _, by simp [runAdds], by simp [runAdds]⟩
  | cons req reqs ih =>
    obtain ⟨ti, de, du⟩ := req
    intro s hI
    by_cases hti : pyStrip ti = ""
    · have hspec := @add_task_err_spec s now ti de du hti
      simp only [runAdds, hspec]
      exact ih s hI
    · have hspec := @add_task_ok_spec s now ti de du hti
      have hI2 : Inv (TaskRepository.save
          { s with
            tasks := dictInsert s.next_id
              { id := s.next_id, title := pyStrip ti, description := pyStrip de,
                completed := false, due_date := du, created_at := now, updated_at := now }
              s.tasks,
            next_id := s.next_id + 1 }) :=
        inv_save (inv_insert_next hI _ rfl)
      obtain ⟨ha, hb, hc, hd⟩ := ih _ hI2
      rw [save_next_id] at hb hc
      simp only [runAdds, hspec]
      refine ⟨ha, ?_, ?_, ?_⟩
      · exact le_trans (le_of_lt (lt_add_one s.next_id)) hb
      · intro i hi
        rcases List.mem_cons.mp hi with h | h
        · rw [h]
        · exact le_trans (le_of_lt (lt_add_one s.next_id)) (hc i h)
      · refine List.Pairwise.cons ?_ hd
        intro i hi
        exact lt_of_lt_of_le (lt_add_one s.next_id) (hc i hi)

theorem timestampsOK_insert {s : TaskRepository} {k : Int} {t : Task}
    (hTS : TimestampsOK s) (h : t.created_at ≤ t.updated_at) :
    TimestampsOK { s with tasks := dictInsert k t s.tasks } := by
  intro p hp
  rcases mem_dictInsert hp with h2 | h2
  · rw [h2]; exact h
  · exact hTS p h2

theorem timestampsOK_save_iff {s : TaskRepository} :
    TimestampsOK s.save ↔ TimestampsOK s := by
  unfold TimestampsOK
  rw [save_tasks]

theorem update_task_timestamps {s : TaskRepository} {now : Nat} {task_id : Int}
    {ti : Option String} {de : Option (Option String)} {du : Option DueArg}
    {co : Option Bool} (hTS : TimestampsOK s)
    (hclock : ∀ p ∈ s.tasks, p.2.created_at ≤ now) :
    TimestampsOK (s.update_task now task_id ti de du co).1 := by
  unfold TaskRepository.update_task
  cases hget : dictGet s.tasks task_id with
  | none => exact hTS
  | some t0 =>
    have ht0 : (task_id, t0) ∈ s.tasks := dictGet_mem hget
    have h1 : t0.created_at ≤ t0.updated_at := hTS _ ht0
    have h2 : t0.created_at ≤ now := hclock _ ht0
    rcases ti with _ | x <;> rcases de with _ | dv <;> rcases co with _ | c <;>
      rcases du with _ | du2 <;> (try rcases du2 with _ | d | tag) <;>
      dsimp only <;>
      simp only [Option.isSome_some, Option.isSome_none, Bool.false_or, Bool.true_or,
        Bool.or_true, Bool.or_false, Bool.or_self, false_and, true_and, if_false, if_true,
        Bool.false_eq_true, ite_true, ite_false] <;>
      first
        | exact hTS
        | exact timestampsOK_insert hTS h1
        | exact timestampsOK_save_iff.mpr (timestampsOK_insert hTS h2)
        | (split <;> first
            | exact hTS
            | exact timestampsOK_insert hTS h1
            | exact timestampsOK_save_iff.mpr (timestampsOK_insert hTS h2))

/-- C4: for every existing task id, calling update with no recognized field
supplied returns the task with every field equal to its prior value, leaves
`updated_at` untouched, and performs no persistence: the entire repository
state, backing file included, is unchanged. -/
theorem c4_noop_update (s : TaskRepository) (now : Nat) (task_id : Int) (t : Task)
    (h : dictGet s.tasks task_id = some t) :
    s.update_task now task_id none none none none = (s, Except.ok t) := by
  unfold TaskRepository.update_task
  rw [h]
  simp

theorem c4_noop_update_witness :
    repoA.update_task 7 1 none none none none = (repoA, Except.ok taskA) :=
  c4_noop_update repoA 7 1 taskA (by decide)

/-- C7: adding a task whose title is empty after trimming fails with the
validation error and leaves the repository state (collection, id counter
and backing file) exactly unchanged, so no task is created. -/
theorem c7_empty_title_add (s : TaskRepository) (now : Nat)
    (title description : String) (due_date : Option Nat)
    (h : pyStrip title = "") :
    s.add_task now title description due_date =
      (s, Except.error (RepoError.validation "Task title must not be empty.")) :=
  add_task_err_spec h

theorem c7_empty_title_add_witness :
    repoA.add_task 9 "   " "d" none =
      (repoA, Except.error (RepoError.validation "Task title must not be empty.")) :=
  c7_empty_title_add repoA 9 "   " "d" none (by decide)

/-- C10: when a task is reconstructed from a persisted record, a present
`completed` value of any truthy shape (for example the non-empty string
"false") is coerced to `true`; an absent key or a falsy value yields
`false`. -/
theorem c10_completed_truthiness (p : Payload) (t : Task)
    (h : Task.from_dict p = some t) :
    t.completed = truthy (p.completed.getD JVal.null) ∧
    truthy (JVal.str "false") = true ∧ truthy JVal.null = false := by
  refine ⟨?_, by decide, by decide⟩
  have hc := (from_dict_fields h).2.1
  cases hp : p.completed with
  | none => rw [hp] at hc; simpa [truthy] using hc
  | some v => rw [hp] at hc; simpa using hc

theorem c10_completed_truthiness_witness :
    taskStrFalse.completed = truthy (payloadStrFalse.completed.getD JVal.null) ∧
    truthy (JVal.str "false") = true ∧ truthy JVal.null = false :=
  c10_completed_truthiness payloadStrFalse taskStrFalse (by decide)

/-- C2 counterexample: the record `payloadEmptyDue` carries a present,
non-null `due_date` (the empty string, which is not parsable as a date:
`isoToNat "" = none`), yet `from_dict` does not fail the load — it succeeds
and silently leaves the due date absent. -/
theorem c2_counterexample :
    payloadEmptyDue.due_date = some (JVal.str "") ∧
    isoToNat "" = none ∧
    (Task.from_dict payloadEmptyDue).map (fun t => t.due_date) = some none := by
  decide

/-- C2 (amended): `from_dict` parses `due_date` when the stored value is
truthy and leaves the field absent when it is falsy (null, but also the
empty string); a truthy value whose content is unparsable fails the load. -/
theorem c2_due_date_parsing (p : Payload) (t : Task) :
    (Task.from_dict p = some t →
      t.due_date = (if truthy (p.due_date.getD JVal.null) = true
        then isoValToNat (p.due_date.getD JVal.null) else none)) ∧
    (truthy (p.due_date.getD JVal.null) = true →
      isoValToNat (p.due_date.getD JVal.null) = none → Task.from_dict p = none) :=
  ⟨fun h => (from_dict_fields h).1, fun ht hp => from_dict_due_unparsable ht hp⟩

theorem c2_due_date_parsing_witness :
    (taskA.due_date = (if truthy ((Task.to_dict taskA).due_date.getD JVal.null) = true
      then isoValToNat ((Task.to_dict taskA).due_date.getD JVal.null) else none)) ∧
    Task.from_dict payloadBadDue = none :=
  ⟨(c2_due_date_parsing (Task.to_dict taskA) taskA).1 (by decide),
   (c2_due_date_parsing payloadBadDue taskA).2 (by decide) (by decide)⟩

/-- C1: the concrete failing input.  With task 1 present (description
"old"), the update call supplying both a new description and a `due_date`
of the wrong type raises the `TypeError` and never writes the file — but
the in-memory task has already been mutated in place: its description is
now "new".  This contradicts the claim that such a call leaves the
collection unchanged. -/
theorem c1_type_error_mutates_memory :
    (repoA.update_task 7 1 none (some (some "new"))
        (some (DueArg.other "2024-01-01")) none).2 =
      Except.error (RepoError.typeError "due_date must be a date object or None.") ∧
    dictGet repoA.tasks 1 = some taskA ∧
    taskA.description = "old" ∧
    dictGet (repoA.update_task 7 1 none (some (some "new"))
        (some (DueArg.other "2024-01-01")) none).1.tasks 1 =
      some { taskA with description := "new" } ∧
    (repoA.update_task 7 1 none (some (some "new"))
        (some (DueArg.other "2024-01-01")) none).1.file = repoA.file := by
  decide

/-- C6: the `completed` filter returns exactly the tasks whose completed
flag matches, in ascending-id order; the `due_before` filter returns
exactly the tasks with a non-null due date at or before the bound; both
filters compose with logical AND. -/
theorem c6_filter_correctness (s : TaskRepository) (c : Bool) (D : Nat) :
    ((s.list_tasks (some c) none).Perm
        ((s.tasks.map (fun p => p.2)).filter (fun t => t.completed == c)) ∧
      List.Sorted taskLE (s.list_tasks (some c) none)) ∧
    ((s.list_tasks none (some D)).Perm
        ((s.tasks.map (fun p => p.2)).filter (dueFilter D)) ∧
      List.Sorted taskLE (s.list_tasks none (some D))) ∧
    ((s.list_tasks (some c) (some D)).Perm
        ((s.tasks.map (fun p => p.2)).filter
          (fun t => dueFilter D t && (t.completed == c))) ∧
      List.Sorted taskLE (s.list_tasks (some c) (some D))) := by
  refine ⟨⟨?_, ?_⟩, ⟨?_, ?_⟩, ⟨?_, ?_⟩⟩
  · exact List.perm_insertionSort taskLE _
  · exact List.sorted_insertionSort taskLE _
  · exact List.perm_insertionSort taskLE _
  · exact List.sorted_insertionSort taskLE _
  · rw [← List.filter_filter]
    exact List.perm_insertionSort taskLE _
  · exact List.sorted_insertionSort taskLE _

/-- C9: after a successful load, the next-id counter is one greater than
the maximum id among the loaded tasks, or 1 when the collection is empty,
and the next successful add assigns exactly that counter value as the new
task id. -/
theorem c9_next_id_after_load (file : Option (List Payload)) (s : TaskRepository)
    (h : TaskRepository.load file = some s) (now : Nat) (ti de : String)
    (du : Option Nat) :
    s.next_id = (if s.tasks.isEmpty then 1 else maxId s.tasks + 1) ∧
    (¬ pyStrip ti = "" →
      (s.add_task now ti de du).2 =
        Except.ok { id := s.next_id, title := pyStrip ti, description := pyStrip de,
                    completed := false, due_date := du, created_at := now,
                    updated_at := now }) := by
  constructor
  · cases file with
    | none =>
      simp only [TaskRepository.load, Option.some.injEq] at h
      rw [← h]
      rfl
    | some items =>
      simp only [TaskRepository.load, loadTasks, Option.map_eq_some'] at h
      obtain ⟨d, hd, hs⟩ := h
      have hkid : ∀ p ∈ d, p.1 = p.2.id := loadAll_key_eq_id items [] d (by simp) hd
      rw [← hs]
      simp only
      rw [maxKey_eq_maxId hkid]
  · intro hti
    rw [add_task_ok_spec hti]

theorem c9_next_id_after_load_witness :
    repoA.next_id = (if repoA.tasks.isEmpty then 1 else maxId repoA.tasks + 1) ∧
    (repoA.add_task 9 " T " "d" none).2 =
      Except.ok { id := repoA.next_id, title := pyStrip " T ",
                  description := pyStrip "d", completed := false, due_date := none,
                  created_at := 9, updated_at := 9 } :=
  have h := c9_next_id_after_load (some [Task.to_dict taskA, Task.to_dict taskB])
    repoA (by decide) 9 " T " "d" none
  ⟨h.1, h.2 (by decide)⟩

/-- C8: along any sequence of add calls from a well-formed state, the ids
assigned by the successful calls are pairwise distinct and strictly
increasing in call order, and the final collection holds each id at most
once. -/
theorem c8_add_ids_strictly_increasing (s : TaskRepository) (now : Nat)
    (reqs : List (String × String × Option Nat)) (hI : Inv s) :
    List.Pairwise (fun a b => a < b) (runAdds s now reqs).2 ∧
    (keys (runAdds s now reqs).1.tasks).Nodup := by
  obtain ⟨ha, _, _, hd⟩ := runAdds_spec reqs s hI
  exact ⟨hd, ha.1⟩

theorem c8_add_ids_strictly_increasing_witness :
    List.Pairwise (fun a b => a < b)
      (runAdds repoA 9 [("X", "", none), ("  ", "", none), ("Y", "", some 4)]).2 ∧
    (keys (runAdds repoA 9
      [("X", "", none), ("  ", "", none), ("Y", "", some 4)]).1.tasks).Nodup :=
  c8_add_ids_strictly_increasing repoA 9
    [("X", "", none), ("  ", "", none), ("Y", "", some 4)] (by unfold Inv; decide)

/-- C5: saving a task collection and constructing a fresh repository from
the written file succeeds and yields a collection equal to the original —
same ids, titles, descriptions, completed flags, due dates and timestamps
(the codec round-trips values exactly at the serialized precision). -/
theorem c5_save_load_roundtrip (s : TaskRepository)
    (hnd : (keys s.tasks).Nodup) (hkid : ∀ p ∈ s.tasks, p.1 = p.2.id)
    (hst : s.storage_configured = true) :
    (TaskRepository.load s.save.file).map (fun s2 => s2.list_tasks none none) =
      some (s.list_tasks none none) := by
  have hfile : s.save.file = some ((s.list_tasks none none).map Task.to_dict) :=
    save_file_of_configured hst
  have hvals : ((s.tasks.map (fun p => p.2)).map (fun t => t.id)).Nodup := by
    rw [List.map_map]
    have he : s.tasks.map ((fun t => t.id) ∘ (fun p : Int × Task => p.2)) = keys s.tasks :=
      List.map_congr_left (fun p hp => (hkid p hp).symm)
    rw [he]
    exact hnd
  have hperm : (s.list_tasks none none).Perm (s.tasks.map (fun p => p.2)) :=
    List.perm_insertionSort taskLE _
  have hids : ((s.list_tasks none none).map (fun t => t.id)).Nodup :=
    ((hperm.map (fun t => t.id)).nodup_iff).mpr hvals
  have hload : List.foldlM loadStep []
      ((s.list_tasks none none).map Task.to_dict) =
      some ([] ++ (s.list_tasks none none).map (fun t => (t.id, t))) :=
    loadAll_map_to_dict (s.list_tasks none none) [] (by simp [keys]) hids
  rw [hfile]
  simp only [TaskRepository.load, loadTasks, hload, List.nil_append, Option.map_some']
  congr 1
  show List.insertionSort taskLE
      (((s.list_tasks none none).map (fun t => (t.id, t))).map (fun p => p.2)) =
    s.list_tasks none none
  rw [List.map_map]
  have hcomp : ((fun p : Int × Task => p.2) ∘ (fun t : Task => (t.id, t))) = id := rfl
  have hmapid : ((s.list_tasks none none).map
      ((fun p : Int × Task => p.2) ∘ (fun t => (t.id, t)))) = s.list_tasks none none := by
    rw [hcomp, List.map_id]
  rw [hmapid]
  exact List.Sorted.insertionSort_eq (List.sorted_insertionSort taskLE _)

theorem c5_save_load_roundtrip_witness :
    (TaskRepository.load repoA.save.file).map (fun s2 => s2.list_tasks none none) =
      some (repoA.list_tasks none none) :=
  c5_save_load_roundtrip repoA (by decide) (by decide) (by decide)

/-- C3 counterexample: loading the file holding `payloadBackwards` (whose
`updated_at` is strictly before its `created_at`) succeeds, and the
repository then holds a task with `updated_at < created_at` — `from_dict`
and `_load` perform no check of the spec invariant. -/
theorem c3_counterexample :
    (TaskRepository.load (some [payloadBackwards])).map
      (fun s => s.tasks.all (fun p => decide (p.2.created_at ≤ p.2.updated_at))) =
      some false := by
  decide

/-- C3 (amended): `updated_at >= created_at` holds for every task created
by add, is preserved by update whenever the clock is at or after every
held `created_at`, and holds after a load exactly when every record in the
file reconstructs to a task satisfying it — the load path itself performs
no check. -/
theorem c3_timestamps_invariant (s : TaskRepository) (now : Nat) (task_id : Int)
    (ti2 : Option String) (de2 : Option (Option String)) (du2 : Option DueArg)
    (co : Option Bool) (ti de : String) (du : Option Nat)
    (items : List Payload) (s2 : TaskRepository) :
    (TimestampsOK s → TimestampsOK (s.add_task now ti de du).1) ∧
    (TimestampsOK s → (∀ p ∈ s.tasks, p.2.created_at ≤ now) →
      TimestampsOK (s.update_task now task_id ti2 de2 du2 co).1) ∧
    ((∀ q ∈ items, (Task.from_dict q).all
        (fun u => decide (u.created_at ≤ u.updated_at)) = true) →
      TaskRepository.load (some items) = some s2 → TimestampsOK s2) := by
  refine ⟨?_, ?_, ?_⟩
  · intro hTS
    by_cases hti : pyStrip ti = ""
    · rw [add_task_err_spec hti]
      exact hTS
    · rw [add_task_ok_spec hti]
      exact timestampsOK_save_iff.mpr (timestampsOK_insert hTS (le_refl now))
  · intro hTS hclock
    exact update_task_timestamps hTS hclock
  · intro hall hload
    simp only [TaskRepository.load, loadTasks, Option.map_eq_some'] at hload
    obtain ⟨d, hd, hs⟩ := hload
    subst hs
    intro p hp
    rcases loadAll_values items [] d hd p hp with h | ⟨q, hq, hfq⟩
    · simp at h
    · have hq2 := hall q hq
      rw [hfq] at hq2
      simpa using hq2

theorem c3_timestamps_invariant_witness :
    TimestampsOK (repoA.add_task 9 " T " "d" (some 5)).1 ∧
    TimestampsOK (repoA.update_task 9 1 (some " New ") (some (some "d"))
      (some (DueArg.date 7)) (some true)).1 ∧
    TimestampsOK repoSmall :=
  have h := c3_timestamps_invariant repoA 9 1 (some " New ") (some (some "d"))
    (some (DueArg.date 7)) (some true) " T " "d" (some 5) [Task.to_dict taskA] repoSmall
  ⟨h.1 (by unfold TimestampsOK; decide),
   h.2.1 (by unfold TimestampsOK; decide) (by decide),
   h.2.2 (by decide) (by decide)⟩

end TaskApp
